import Mathlib

/-!
Verification of the Rule-Compliance & Content-Variation Engine of the
Reddit automation dashboard, together with two frontend behaviours
(campaign start account filtering and multi-select account toggling).

The backend core (Rule Registry, Compliance Scorer, Content Variant
Generator, Campaign Planner) is specified in spec.md sections 3-4 but its
code is not among the repository files staged here (only its user guide
and HTTP examples are), so those components are modelled from the spec's
words; each such definition is marked `Modelled from the spec:`.
The frontend definitions are translated directly from
src/frontend/src/components/DiscordPromotion.jsx and AccountSelector.js.
-/

/-- Modelled from the spec: severity levels of a rule (section 3, Rule). -/
inductive Severity
  | low
  | medium
  | high
  deriving DecidableEq, Repr

/-- Modelled from the spec: a candidate title/body pair (section 4.2 contract). -/
structure Content where
  title : String
  body : String
  deriving DecidableEq, Repr

/-- Modelled from the spec: a Violation produced per failing rule application
(section 3): rule_kind, message, severity, optional matched span. -/
structure Violation where
  rule_kind : String
  message : String
  severity : Severity
  matched_span : Option String
  deriving DecidableEq, Repr

/-- Modelled from the spec: a Rule is a predicate class with a kind, parameters
and a severity (section 3).  The staged repository only documents the
banned-term and structural-requirement kinds concretely, so those are the
modelled kinds. -/
inductive Rule
  | banned_term (name : String) (terms : List String) (severity : Severity)
  | structural_requirement (severity : Severity)
  deriving DecidableEq, Repr

/-- Modelled from the spec: a RuleSet is identified by a target key and holds an
ordered list of rules (section 3). -/
structure RuleSet where
  target_key : String
  rules : List Rule
  deriving DecidableEq, Repr

/-- Modelled from the spec: aggregate of a scoring pass (section 3,
ComplianceResult). -/
structure ComplianceResult where
  is_compliant : Bool
  score : Nat
  violations : List Violation
  suggested_fixes : List String
  deriving DecidableEq, Repr

/-- Lower-cased character data of a string, used for the case-insensitive
comparisons the spec requires for banned-term checks (section 4.2 edge cases;
diacritic folding is not modelled, no claim exercises it). -/
def lowerChars (s : String) : List Char :=
  s.data.map Char.toLower

/-- Modelled from the spec: case-insensitive substring test used by
banned-term rules. -/
def containsTerm (haystack term : String) : Bool :=
  decide (lowerChars term <:+: lowerChars haystack)

/-- Modelled from the spec: evaluating one Rule against a content pair returns
zero or more Violations and never throws (section 3 invariant).  A banned-term
rule yields one Violation per banned term found case-insensitively in the
combined title and body (section 4.2 step 1: a rule may produce more than one);
a structural-requirement rule fails exactly on an empty title or body
(section 4.2 edge cases). -/
def runRule (r : Rule) (c : Content) : List Violation :=
  match r with
  | Rule.banned_term _ terms sev =>
      (terms.filter (fun t => containsTerm (c.title ++ " " ++ c.body) t)).map
        (fun t =>
          { rule_kind := "banned_term"
            message := "Contains banned term: " ++ t
            severity := sev
            matched_span := some t })
  | Rule.structural_requirement sev =>
      if c.title = "" ∨ c.body = "" then
        [{ rule_kind := "structural_requirement"
           message := "Title and body must be non-empty"
           severity := sev
           matched_span := none }]
      else []

/-- Modelled from the spec: run every Rule in the RuleSet against the content,
independently and order-preserving, collecting all Violations (section 4.2
step 1). -/
def collectViolations (rs : RuleSet) (c : Content) : List Violation :=
  rs.rules.flatMap (fun r => runRule r c)

/-- Modelled from the spec: fixed penalty per violation keyed by severity
(section 4.2 step 2: high 40, medium 20, low 10). -/
def severityPenalty : Severity → Nat
  | Severity.high => 40
  | Severity.medium => 20
  | Severity.low => 10

/-- Modelled from the spec: the default compliance threshold (section 4.2
step 3). -/
def compliance_threshold : Nat := 70

/-- Modelled from the spec: score derivation starts at 100 and subtracts the
per-violation penalty, floored at 0 (section 4.2 step 2); natural-number
subtraction realises the floor. -/
def scoreViolations (vs : List Violation) : Nat :=
  vs.foldl (fun s v => s - severityPenalty v.severity) 100

/-- Modelled from the spec: whether a high-severity violation is present
(section 4.2 step 3, hard gate). -/
def hasHighViolation (vs : List Violation) : Bool :=
  vs.any (fun v => decide (v.severity = Severity.high))

/-- Modelled from the spec: one suggested fix is derived per Violation from the
rule's fix template, substituting matched text where available (section 4.2
step 4). -/
def suggestedFix (v : Violation) : String :=
  match v.matched_span with
  | some t => "Replace " ++ t ++ " with a neutral phrase"
  | none => "Fix: " ++ v.message

/-- Modelled from the spec: the Compliance Scorer contract
evaluate(content, ruleset) -> ComplianceResult (section 4.2). -/
def evaluate (c : Content) (rs : RuleSet) : ComplianceResult :=
  let vs := collectViolations rs c
  { is_compliant :=
      decide (compliance_threshold ≤ scoreViolations vs) && !hasHighViolation vs
    score := scoreViolations vs
    violations := vs
    suggested_fixes := vs.map suggestedFix }

/-- Modelled from the spec: the default/fallback RuleSet, containing at least
the universal banned-term rules (section 8 concrete scenario). -/
def defaultRuleSet : RuleSet :=
  { target_key := "default"
    rules :=
      [ Rule.banned_term "no_external_sites" ["discord", "onlyfans"] Severity.high,
        Rule.structural_requirement Severity.medium ] }

/-- Modelled from the spec: the rule set registered for the Norwegian NSFW
subreddit the guide targets (banned external sites at high severity,
buying/selling language at medium severity, structural requirements). -/
def norwayRuleSet : RuleSet :=
  { target_key := "norwaygonewildddddddd"
    rules :=
      [ Rule.banned_term "no_external_sites"
          ["discord", "onlyfans", "fansly", "telegram", "snapchat"] Severity.high,
        Rule.banned_term "no_selling" ["selger", "pris", "betal", "vipps"]
          Severity.medium,
        Rule.structural_requirement Severity.medium ] }

/-- Modelled from the spec: the per-target rule sets loaded at startup from
static configuration (section 3, RuleSet lifecycle). -/
def registry : List (String × RuleSet) :=
  [("norwaygonewildddddddd", norwayRuleSet)]

/-- Modelled from the spec: Rule Registry contract
resolve(target_key) -> RuleSet, returning the default/fallback RuleSet when the
key is unknown, with the fallback observable via a returned diagnostic flag
(sections 4.1 and 7, UnknownTarget). -/
def resolve (reg : List (String × RuleSet)) (key : String) : RuleSet × Bool :=
  match reg.lookup key with
  | some rs => (rs, false)
  | none => (defaultRuleSet, true)

/-- Banned terms carried by the banned-term rules of a RuleSet. -/
def bannedTermsOf (rs : RuleSet) : List String :=
  rs.rules.flatMap (fun r =>
    match r with
    | Rule.banned_term _ terms _ => terms
    | Rule.structural_requirement _ => [])

/-- The content of the spec's concrete compliance scenario (section 8). -/
def scenarioContent : Content :=
  { title := "Join my Discord server!", body := "Come chat with us on Discord!" }

/-- Modelled from the spec: the closed enumeration of obfuscation strategies
(section 4.3). -/
inductive StrategyKind
  | comment_only
  | bio_redirect
  | coded_message
  | image_qr
  | comment_chain
  deriving DecidableEq, Repr

/-- Modelled from the spec: the strategy-specific secondary payload bundled
with a generated primary post (section 4.3). -/
inductive SecondaryPayload
  | comment (delay_minutes : Nat) (comment_text : String)
  | bio (phrase : String)
  | dm (phrase : String)
  | qr (caption : String) (payload_url : String)
  | chain (comments : List (Nat × String))
  deriving DecidableEq, Repr

/-- Modelled from the spec: a ContentVariant bundles a primary post with its
strategy and secondary payload (section 4.3 contract). -/
structure ContentVariant where
  title : String
  body : String
  strategy : StrategyKind
  payload : SecondaryPayload
  deriving DecidableEq, Repr

/-- Modelled from the spec: the Norwegian title pool of the static
language-tagged content templates (section 3, ContentTemplate; the guide's
generate-content example). -/
def norwegianTitles : List String :=
  [ "Norsk jente soker selskap i kveld",
    "Hyggelig prat med en norsk jente?",
    "Noen som vil bli kjent i kveld?" ]

/-- Modelled from the spec: the Norwegian body pool of the static
language-tagged content templates. -/
def norwegianBodies : List String :=
  [ "Hei! Jeg er en norsk jente som liker musikk og film. Send meg en melding!",
    "Soker hyggelige folk aa snakke med. Liker turer og god kaffe.",
    "Hei dere! Vil gjerne bli kjent med nye mennesker her." ]

/-- Template pool selection by pseudo-random draw index (section 3: the
Generator selects entries pseudo-randomly or by strategy key). -/
def pick (pool : List String) (seed : Nat) : String :=
  pool.getD (seed % pool.length) ""

/-- Modelled from the spec: the fixed opening of the delayed comment text
(the guide's generate-content example). -/
def commentIntro : String := "Hei! For de som vil chatte mer privat: "

/-- Modelled from the spec: the fixed closing of the delayed comment text. -/
def commentOutro : String := " :)"

/-- Modelled from the spec: the delayed-comment delay in minutes, bounded in
5 to 15 and chosen pseudo-randomly per call (section 4.3, comment_only). -/
def commentDelay (seed : Nat) : Nat := 5 + seed % 11

/-- Modelled from the spec: the locale-specific fixed phrase of the
bio_redirect strategy (section 4.3). -/
def bioPhrase : String := "Link i bio for mer!"

/-- Modelled from the spec: the fixed phrase of the coded_message strategy
(section 4.3). -/
def dmPhrase : String := "DM for spesiell invitasjon"

/-- Modelled from the spec: the Content Variant Generator contract
generate(target_url, strategy, locale) -> ContentVariant (section 4.3).  Only
the Norwegian template pool is modelled, matching the staged guide; `seed`
is the injected pseudo-random draw and `shortUrl` the indirection URL supplied
by the external URL-shortening collaborator (section 6).  The primary post of
comment_only never references the target URL; the comment text references the
indirection URL. -/
def generate (target_url : String) (strategy : StrategyKind) (_locale : String)
    (seed : Nat) (shortUrl : String) : ContentVariant :=
  match strategy with
  | StrategyKind.comment_only =>
      { title := pick norwegianTitles seed
        body := pick norwegianBodies seed
        strategy := StrategyKind.comment_only
        payload := SecondaryPayload.comment (commentDelay seed)
          (commentIntro ++ shortUrl ++ commentOutro) }
  | StrategyKind.bio_redirect =>
      { title := pick norwegianTitles seed
        body := pick norwegianBodies seed ++ " " ++ bioPhrase
        strategy := StrategyKind.bio_redirect
        payload := SecondaryPayload.bio bioPhrase }
  | StrategyKind.coded_message =>
      { title := pick norwegianTitles seed
        body := pick norwegianBodies seed ++ " " ++ dmPhrase
        strategy := StrategyKind.coded_message
        payload := SecondaryPayload.dm dmPhrase }
  | StrategyKind.image_qr =>
      { title := pick norwegianTitles seed
        body := pick norwegianBodies seed
        strategy := StrategyKind.image_qr
        payload := SecondaryPayload.qr (pick norwegianTitles seed) target_url }
  | StrategyKind.comment_chain =>
      { title := pick norwegianTitles seed
        body := pick norwegianBodies seed
        strategy := StrategyKind.comment_chain
        payload := SecondaryPayload.chain
          [ (commentDelay seed, pick norwegianBodies (seed + 1)),
            (commentDelay seed + 10, commentIntro ++ shortUrl ++ commentOutro) ] }

/-- Modelled from the spec: the Generator's bounded retry budget (section 4.3,
"up to a bounded number of attempts (e.g., 5)"). -/
def max_attempts : Nat := 5

/-- Outcome of the Generator's post-generation self-check: the returned content
and the GenerationExhausted warning flag (section 7, best_effort). -/
structure GenOutcome where
  content : Content
  best_effort : Bool
  deriving DecidableEq, Repr

/-- The better-scoring of two candidate contents under a RuleSet. -/
def betterOf (rs : RuleSet) (best c : Content) : Content :=
  if (evaluate best rs).score < (evaluate c rs).score then c else best

/-- Modelled from the spec: the best-scoring attempt among the bounded retry
draws (section 4.3).  `drawf i` is the primary title/body of template draw i. -/
def bestAttempt (drawf : Nat → Content) (rs : RuleSet) : Content :=
  ((List.range max_attempts).map drawf).foldl (betterOf rs) (drawf 0)

/-- Modelled from the spec: the post-generation self-check (section 4.3): the
Generator runs each draw through the Compliance Scorer, returns the first
compliant draw, and otherwise — after the bounded retry budget — returns the
best-scoring attempt flagged best_effort rather than looping or failing. -/
def generateChecked (drawf : Nat → Content) (rs : RuleSet) : GenOutcome :=
  match (List.range max_attempts).find?
      (fun i => (evaluate (drawf i) rs).is_compliant) with
  | some i => { content := drawf i, best_effort := false }
  | none => { content := bestAttempt drawf rs, best_effort := true }

/-- Modelled from the spec: a single step of a StealthPlan (section 3). -/
structure PlanStep where
  offset_minutes : Nat
  action_kind : String
  payload : String
  deriving DecidableEq, Repr

/-- Modelled from the spec: a StealthPlan is an ordered sequence of PlanSteps
plus metadata (section 3). -/
structure StealthPlan where
  steps : List PlanStep
  strategy : String
  estimated_success_rate : Nat
  deriving DecidableEq, Repr

/-- Name of a strategy, used as a plan step's action kind. -/
def strategyName : StrategyKind → String
  | StrategyKind.comment_only => "comment_only"
  | StrategyKind.bio_redirect => "bio_redirect"
  | StrategyKind.coded_message => "coded_message"
  | StrategyKind.image_qr => "image_qr"
  | StrategyKind.comment_chain => "comment_chain"

/-- Modelled from the spec: static per-strategy nominal delay between plan
steps, a configuration constant (section 4.4). -/
def strategyDelay : StrategyKind → Nat
  | StrategyKind.comment_only => 10
  | StrategyKind.bio_redirect => 30
  | StrategyKind.coded_message => 20
  | StrategyKind.image_qr => 15
  | StrategyKind.comment_chain => 25

/-- Modelled from the spec: static per-strategy success-rate constants
(the guide's Success Strategies section: 85, 95, 75, 90). -/
def successRate : StrategyKind → Nat
  | StrategyKind.comment_only => 85
  | StrategyKind.bio_redirect => 75
  | StrategyKind.coded_message => 90
  | StrategyKind.image_qr => 95
  | StrategyKind.comment_chain => 85

/-- Modelled from the spec: offset assignment enforcing strict ordering: the
desired offset is taken when it exceeds the previous one, otherwise the tie is
broken by insertion order plus one minute (section 4.4). -/
def nextOffset (last desired : Nat) : Nat :=
  if last < desired then desired else last + 1

/-- Modelled from the spec: build the ordered PlanStep list, one step per
logical post, assigning monotonically increasing offsets (section 4.4). -/
def planStepsFrom (target_url : String) (last : Nat) :
    List StrategyKind → List PlanStep
  | [] => []
  | s :: ss =>
      let o := nextOffset last (last + strategyDelay s)
      { offset_minutes := o, action_kind := strategyName s, payload := target_url }
        :: planStepsFrom target_url o ss

/-- Modelled from the spec: the Campaign Planner contract
plan(target_url, strategy_sequence) -> StealthPlan, a pure function that builds
the timed step list and blends the static success-rate constants
(section 4.4). -/
def plan (target_url : String) (strategy_sequence : List StrategyKind) :
    StealthPlan :=
  { steps := planStepsFrom target_url 0 strategy_sequence
    strategy := String.intercalate "+" (strategy_sequence.map strategyName)
    estimated_success_rate := (strategy_sequence.map successRate).foldr min 100 }

/-- Account record as consumed by the Discord promotion frontend
(DiscordPromotion.jsx): an id, a username and the is_valid flag. -/
structure Account where
  id : Nat
  username : String
  is_valid : Bool
  deriving DecidableEq, Repr

/-- The account_ids request body computed by startCampaign
(src/frontend/src/components/DiscordPromotion.jsx lines 106-122):
accounts.filter(acc => acc.is_valid).map(acc => acc.id). -/
def startCampaignAccountIds (accounts : List Account) : List Nat :=
  (accounts.filter (fun a => a.is_valid)).map (fun a => a.id)

/-- The multi-select branch of handleAccountToggle
(src/frontend/src/components/AccountSelector.js lines 9-22): remove the id
when present (filter id !== accountId), append it when absent. -/
def handleAccountToggle (selectedAccounts : List Nat) (accountId : Nat) :
    List Nat :=
  if accountId ∈ selectedAccounts then
    selectedAccounts.filter (fun id => decide (id ≠ accountId))
  else
    selectedAccounts ++ [accountId]

/- ### Theorems -/

/-- Folding severity subtraction equals subtracting the severity-penalty sum,
in natural-number (floored) subtraction. -/
theorem scoreViolations_eq_sub (vs : List Violation) :
    scoreViolations vs = 100 - ((vs.map (fun v => severityPenalty v.severity)).sum) := by
  have h : ∀ (l : List Violation) (n : Nat),
      l.foldl (fun s v => s - severityPenalty v.severity) n =
        n - ((l.map (fun v => severityPenalty v.severity)).sum) := by
    intro l
    induction l with
    | nil => intro n; simp
    | cons v l ih =>
        intro n
        simp [List.foldl_cons, ih, Nat.sub_sub]
  exact h vs 100

/-- C1: the compliance score returned by evaluate equals 100 minus the sum of
the fixed per-violation penalties (high 40, medium 20, low 10) over all
collected violations, floored at 0. -/
theorem evaluate_score_is_floored_penalty_sum (c : Content) (rs : RuleSet) :
    ((evaluate c rs).score : Int) =
      max 0 ((100 : Int) -
        (((collectViolations rs c).map (fun v => severityPenalty v.severity)).sum : Int)) := by
  have h := scoreViolations_eq_sub (collectViolations rs c)
  simp only [evaluate, h]
  omega

/-- C2: evaluate is compliant exactly when the score reaches the threshold
(default 70) and no high-severity violation is present; a single high-severity
violation forces non-compliance regardless of the aggregate score. -/
theorem evaluate_is_compliant_iff (c : Content) (rs : RuleSet) :
    ((evaluate c rs).is_compliant = true ↔
      (compliance_threshold ≤ (evaluate c rs).score ∧
        ∀ v ∈ (evaluate c rs).violations, v.severity ≠ Severity.high)) ∧
    (∀ v ∈ (evaluate c rs).violations, v.severity = Severity.high →
      (evaluate c rs).is_compliant = false) := by
  constructor
  · simp [evaluate, hasHighViolation, List.any_eq_true]
  · intro v hv hsev
    simp [evaluate, hasHighViolation, List.any_eq_true]
    intro _
    exact ⟨v, hv, hsev⟩

/-- C3: the spec's concrete scenario: the Discord-promoting content evaluated
against the rule set resolved for "norwaygonewildddddddd" is non-compliant,
carries a high-severity banned_term violation matching "discord", and scores
at most 60. -/
theorem evaluate_scenario_discord :
    (evaluate scenarioContent (resolve registry "norwaygonewildddddddd").1).is_compliant
        = false ∧
    (∃ v ∈ (evaluate scenarioContent
        (resolve registry "norwaygonewildddddddd").1).violations,
      v.rule_kind = "banned_term" ∧ v.matched_span = some "discord" ∧
        v.severity = Severity.high) ∧
    (evaluate scenarioContent (resolve registry "norwaygonewildddddddd").1).score ≤ 60 := by
  decide

/-- Sum over a sublist of naturals is at most the sum over the list. -/
theorem sublist_sum_le {vs ws : List Nat} (h : vs.Sublist ws) : vs.sum ≤ ws.sum := by
  induction h with
  | slnil => simp
  | cons a h ih => simp; omega
  | cons₂ a h ih => simp; omega

/-- C7: evaluating the same content against the same RuleSet twice yields the
identical ComplianceResult (violation order included), and the derived score is
monotonically non-increasing as violations are added. -/
theorem evaluate_deterministic_and_score_antitone
    (c : Content) (rs : RuleSet) (vs ws : List Violation) :
    evaluate c rs = evaluate c rs ∧
    (vs.Sublist ws → scoreViolations ws ≤ scoreViolations vs) := by
  refine ⟨rfl, fun h => ?_⟩
  rw [scoreViolations_eq_sub, scoreViolations_eq_sub]
  have hsum := sublist_sum_le (h.map (fun v => severityPenalty v.severity))
  omega

/-- C6: resolve is total and returns the fallback default RuleSet, flagged,
exactly on unknown target keys; the fallback contains the universal banned
terms "discord" and "onlyfans". -/
theorem resolve_fallback_spec (reg : List (String × RuleSet)) (key : String) :
    ((resolve reg key).2 = true ↔ reg.lookup key = none) ∧
    (reg.lookup key = none → resolve reg key = (defaultRuleSet, true)) ∧
    "discord" ∈ bannedTermsOf defaultRuleSet ∧
    "onlyfans" ∈ bannedTermsOf defaultRuleSet := by
  refine ⟨?_, ?_, by decide, by decide⟩
  · cases hl : reg.lookup key <;> simp [resolve, hl]
  · intro hl; simp [resolve, hl]

/-- C9: startCampaign sends as account_ids exactly the ids of the accounts
whose is_valid field is true; an invalid account is never the source of an id
in the scheduling request body. -/
theorem startCampaign_sends_exactly_valid_ids (accounts : List Account) (i : Nat) :
    i ∈ startCampaignAccountIds accounts ↔
      ∃ a ∈ accounts, a.is_valid = true ∧ a.id = i := by
  simp [startCampaignAccountIds, List.mem_map, List.mem_filter]
  tauto

/-- C10: in multi-select mode handleAccountToggle removes a present id and
appends an absent one, so toggling the same id twice preserves membership
exactly (an involution on membership). -/
theorem handleAccountToggle_membership_involution
    (selected : List Nat) (accountId x : Nat) :
    (x ∈ handleAccountToggle (handleAccountToggle selected accountId) accountId ↔
      x ∈ selected) ∧
    (accountId ∈ selected → accountId ∉ handleAccountToggle selected accountId) ∧
    (accountId ∉ selected →
      handleAccountToggle selected accountId = selected ++ [accountId]) := by
  by_cases h : accountId ∈ selected
  · have h1 : handleAccountToggle selected accountId =
        selected.filter (fun id => decide (id ≠ accountId)) := by
      simp [handleAccountToggle, h]
    have h2 : accountId ∉ selected.filter (fun id => decide (id ≠ accountId)) := by
      simp [List.mem_filter]
    have h3 : handleAccountToggle
        (selected.filter (fun id => decide (id ≠ accountId))) accountId =
          selected.filter (fun id => decide (id ≠ accountId)) ++ [accountId] := by
      simp [handleAccountToggle, h2]
    refine ⟨?_, fun _ => by rw [h1]; exact h2, fun hn => absurd h hn⟩
    rw [h1, h3]
    by_cases hx : x = accountId
    · subst hx; simp [List.mem_append, h]
    · simp [List.mem_append, List.mem_filter, hx]
  · have h1 : handleAccountToggle selected accountId = selected ++ [accountId] := by
      simp [handleAccountToggle, h]
    have h2 : accountId ∈ selected ++ [accountId] := by simp
    have h3 : handleAccountToggle (selected ++ [accountId]) accountId =
        (selected ++ [accountId]).filter (fun id => decide (id ≠ accountId)) := by
      simp [handleAccountToggle, h2]
    refine ⟨?_, fun hmem => absurd hmem h, fun _ => h1⟩
    rw [h1, h3]
    by_cases hx : x = accountId
    · subst hx; simp [List.mem_filter, h]
    · simp [List.mem_filter, List.mem_append, hx]

/-- Every step built by planStepsFrom has an offset strictly beyond the
previous offset it was seeded with. -/
theorem planStepsFrom_offset_gt (url : String) :
    ∀ (ss : List StrategyKind) (last : Nat) (st : PlanStep),
      st ∈ planStepsFrom url last ss → last < st.offset_minutes := by
  intro ss
  induction ss with
  | nil => intro last st hst; simp [planStepsFrom] at hst
  | cons s ss ih =>
      intro last st hst
      simp only [planStepsFrom, List.mem_cons] at hst
      rcases hst with rfl | hst
      · simp only [nextOffset]
        split <;> omega
      · have h1 := ih (nextOffset last (last + strategyDelay s)) st hst
        have h2 : last ≤ nextOffset last (last + strategyDelay s) := by
          simp only [nextOffset]; split <;> omega
        omega

/-- The offsets of the steps built by planStepsFrom are strictly increasing. -/
theorem planStepsFrom_offsets_chain (url : String) :
    ∀ (ss : List StrategyKind) (last : Nat),
      List.Chain' (· < ·)
        ((planStepsFrom url last ss).map (fun st => st.offset_minutes)) := by
  intro ss
  induction ss with
  | nil => intro last; simp [planStepsFrom]
  | cons s ss ih =>
      intro last
      simp only [planStepsFrom, List.map_cons]
      rw [List.chain'_cons']
      refine ⟨?_, ih _⟩
      intro b hb
      have hbmem := List.mem_of_mem_head? hb
      obtain ⟨st, hst, rfl⟩ := List.mem_map.mp hbmem
      exact planStepsFrom_offset_gt url ss _ st hst

/-- C5: the offset_minutes of the returned StealthPlan's steps are strictly
increasing (hence pairwise distinct), and plan over an empty strategy sequence
returns an empty step list. -/
theorem plan_offsets_strictly_increasing (url : String) (seq : List StrategyKind) :
    List.Chain' (· < ·) (((plan url seq).steps).map (fun st => st.offset_minutes)) ∧
    List.Pairwise (· < ·)
      (((plan url seq).steps).map (fun st => st.offset_minutes)) ∧
    (plan url []).steps = [] :=
  ⟨planStepsFrom_offsets_chain url seq 0,
   List.chain'_iff_pairwise.mp (planStepsFrom_offsets_chain url seq 0), rfl⟩

/-- The initial candidate never beats the fold of betterOf. -/
theorem foldl_betterOf_init_le (rs : RuleSet) :
    ∀ (l : List Content) (init : Content),
      (evaluate init rs).score ≤ (evaluate (l.foldl (betterOf rs) init) rs).score := by
  intro l
  induction l with
  | nil => intro init; simp
  | cons c l ih =>
      intro init
      simp only [List.foldl_cons]
      have h1 := ih (betterOf rs init c)
      have h2 : (evaluate init rs).score ≤ (evaluate (betterOf rs init c) rs).score := by
        simp only [betterOf]; split <;> omega
      omega

/-- No list member beats the fold of betterOf. -/
theorem foldl_betterOf_mem_le (rs : RuleSet) :
    ∀ (l : List Content) (init c : Content), c ∈ l →
      (evaluate c rs).score ≤ (evaluate (l.foldl (betterOf rs) init) rs).score := by
  intro l
  induction l with
  | nil => intro init c hc; simp at hc
  | cons d l ih =>
      intro init c hc
      rcases List.mem_cons.mp hc with rfl | hc
      · simp only [List.foldl_cons]
        have h1 := foldl_betterOf_init_le rs l (betterOf rs init c)
        have h2 : (evaluate c rs).score ≤ (evaluate (betterOf rs init c) rs).score := by
          simp only [betterOf]; split <;> omega
        omega
      · exact ih (betterOf rs init d) c hc

/-- The fold of betterOf returns the initial candidate or a list member. -/
theorem foldl_betterOf_mem (rs : RuleSet) :
    ∀ (l : List Content) (init : Content),
      l.foldl (betterOf rs) init = init ∨ l.foldl (betterOf rs) init ∈ l := by
  intro l
  induction l with
  | nil => intro init; left; rfl
  | cons c l ih =>
      intro init
      simp only [List.foldl_cons]
      rcases ih (betterOf rs init c) with h | h
      · rw [h]; simp only [betterOf]; split
        · right; exact List.mem_cons_self c l
        · left; rfl
      · right; exact List.mem_cons_of_mem c h

/-- C4: the Generator's result is self-checked: a non-best-effort result passed
the Compliance Scorer; a best_effort result is returned only after all bounded
attempts failed compliance and it is the best-scoring of them; the returned
content is always one of the at most max_attempts draws, so the call neither
loops indefinitely nor fails. -/
theorem generator_self_check_bounded (drawf : Nat → Content) (rs : RuleSet) :
    ((generateChecked drawf rs).best_effort = false →
      (evaluate (generateChecked drawf rs).content rs).is_compliant = true) ∧
    ((generateChecked drawf rs).best_effort = true →
      ∀ i < max_attempts,
        (evaluate (drawf i) rs).is_compliant = false ∧
        (evaluate (drawf i) rs).score ≤
          (evaluate (generateChecked drawf rs).content rs).score) ∧
    (∃ i < max_attempts, (generateChecked drawf rs).content = drawf i) := by
  cases hf : (List.range max_attempts).find?
      (fun i => (evaluate (drawf i) rs).is_compliant) with
  | some i =>
      have hg : generateChecked drawf rs =
          { content := drawf i, best_effort := false } := by
        simp [generateChecked, hf]
      have hp : (evaluate (drawf i) rs).is_compliant = true := by
        have := List.find?_some hf
        simpa using this
      have hmem : i < max_attempts :=
        List.mem_range.mp (List.mem_of_find?_eq_some hf)
      rw [hg]
      exact ⟨fun _ => hp, fun hbe => absurd hbe (by simp), ⟨i, hmem, rfl⟩⟩
  | none =>
      have hg : generateChecked drawf rs =
          { content := bestAttempt drawf rs, best_effort := true } := by
        simp [generateChecked, hf]
      have hnone := List.find?_eq_none.mp hf
      rw [hg]
      refine ⟨fun hbe => absurd hbe (by simp), fun _ i hi => ⟨?_, ?_⟩, ?_⟩
      · have := hnone i (List.mem_range.mpr hi)
        simpa using this
      · exact foldl_betterOf_mem_le rs ((List.range max_attempts).map drawf)
          (drawf 0) (drawf i) (List.mem_map_of_mem drawf (List.mem_range.mpr hi))
      · rcases foldl_betterOf_mem rs ((List.range max_attempts).map drawf)
            (drawf 0) with h | h
        · exact ⟨0, by simp [max_attempts], h⟩
        · obtain ⟨i, hi, heq⟩ := List.mem_map.mp h
          exact ⟨i, List.mem_range.mp hi, heq.symm⟩

/-- An infix of an appended list lies in the left part, lies in the right part,
or straddles the boundary as a nonempty suffix of the left part glued to a
nonempty prefix of the right part. -/
theorem infix_append_cases {α : Type} (p a b : List α) (h : p <:+: a ++ b) :
    p <:+: a ∨ p <:+: b ∨
      ∃ p₁ p₂, p = p₁ ++ p₂ ∧ p₁ ≠ [] ∧ p₂ ≠ [] ∧ p₁ <:+ a ∧ p₂ <+: b := by
  obtain ⟨s, t, hst⟩ := h
  by_cases h1 : s.length + p.length ≤ a.length
  · left
    have hpre : s ++ p <+: a ++ b := ⟨t, hst⟩
    have hpa : s ++ p <+: a :=
      List.prefix_of_prefix_length_le hpre (List.prefix_append a b)
        (by simpa [List.length_append] using h1)
    exact List.IsInfix.trans (⟨s, [], by simp⟩ : p <:+: s ++ p) hpa.isInfix
  · by_cases h2 : a.length ≤ s.length
    · right; left
      have hlen : s.length + p.length + t.length = a.length + b.length := by
        have := congrArg List.length hst
        simp [List.length_append] at this
        omega
      have hsuf : p ++ t <:+ a ++ b := ⟨s, by simpa [List.append_assoc] using hst⟩
      have hb : p ++ t <:+ b :=
        List.suffix_of_suffix_length_le hsuf (List.suffix_append a b)
          (by simp only [List.length_append]; omega)
      exact List.IsInfix.trans (⟨[], t, by simp⟩ : p <:+: p ++ t) hb.isInfix
    · right; right
      push_neg at h1 h2
      have hs : s <+: a :=
        List.prefix_of_prefix_length_le
          ⟨p ++ t, by simpa [List.append_assoc] using hst⟩
          (List.prefix_append a b) (by omega)
      obtain ⟨a1, ha1⟩ := hs
      have hal : s.length + a1.length = a.length := by
        have := congrArg List.length ha1
        simpa [List.length_append] using this
      have ha1ne : a1 ≠ [] := by
        intro e; rw [e] at hal; simp at hal; omega
      have hpt : p ++ t = a1 ++ b := by
        have hx : s ++ (p ++ t) = s ++ (a1 ++ b) := by
          calc s ++ (p ++ t) = s ++ p ++ t := by rw [List.append_assoc]
            _ = a ++ b := hst
            _ = s ++ a1 ++ b := by rw [ha1]
            _ = s ++ (a1 ++ b) := by rw [List.append_assoc]
        exact List.append_cancel_left hx
      have ha1p : a1 <+: p :=
        List.prefix_of_prefix_length_le ⟨b, hpt.symm⟩ (List.prefix_append p t)
          (by omega)
      obtain ⟨p2, hp2⟩ := ha1p
      have hplen : a1.length + p2.length = p.length := by
        have := congrArg List.length hp2
        simpa [List.length_append] using this
      have hp2ne : p2 ≠ [] := by
        intro e; rw [e] at hplen; simp at hplen; omega
      have hp2b : p2 <+: b := by
        refine ⟨t, ?_⟩
        have hx : a1 ++ (p2 ++ t) = a1 ++ b := by
          calc a1 ++ (p2 ++ t) = a1 ++ p2 ++ t := by rw [List.append_assoc]
            _ = p ++ t := by rw [hp2]
            _ = a1 ++ b := hpt
        exact List.append_cancel_left hx
      exact ⟨a1, p2, hp2.symm, ha1ne, hp2ne, ⟨s, ha1⟩, hp2b⟩

/-- A pattern that occurs in neither of two fixed surrounding pieces nor in the
middle piece, and that cannot straddle either boundary, does not occur in the
sandwich at all. -/
theorem not_infix_sandwich (p A B S : List Char)
    (hpA : ¬ p <:+: A) (hpB : ¬ p <:+: B) (hpS : ¬ p <:+: S)
    (hA : ∀ k, k < p.length → ¬ p.take (k + 1) <:+ A)
    (hB : ∀ k, 1 ≤ k → k < p.length → ¬ p.drop k <+: B) :
    ¬ p <:+: A ++ (S ++ B) := by
  intro h
  rcases infix_append_cases p A (S ++ B) h with h1 | h2 | ⟨p1, p2, hp, hne1, hne2, hsuf, _⟩
  · exact hpA h1
  · rcases infix_append_cases p S B h2 with hS | hBB | ⟨q1, q2, hq, hq1ne, hq2ne, _, hq2pre⟩
    · exact hpS hS
    · exact hpB hBB
    · have hd : p.drop q1.length = q2 := by rw [hq]; exact List.drop_left q1 q2
      have hlen : q1.length + q2.length = p.length := by
        have := congrArg List.length hq
        simp [List.length_append] at this
        omega
      have h1le : 1 ≤ q1.length := List.length_pos.mpr hq1ne
      have h2pos : 0 < q2.length := List.length_pos.mpr hq2ne
      exact hB q1.length h1le (by omega) (by rw [hd]; exact hq2pre)
  · have ht : p.take p1.length = p1 := by rw [hp]; exact List.take_left p1 p2
    have h1le : 1 ≤ p1.length := List.length_pos.mpr hne1
    have hlen : p1.length + p2.length = p.length := by
      have := congrArg List.length hp
      simp [List.length_append] at this
      omega
    have h2pos : 0 < p2.length := List.length_pos.mpr hne2
    have hk := hA (p1.length - 1) (by omega)
    rw [show p1.length - 1 + 1 = p1.length by omega, ht] at hk
    exact hk hsuf

/-- Lower-casing distributes over string append. -/
theorem lowerChars_append (s t : String) :
    lowerChars (s ++ t) = lowerChars s ++ lowerChars t := by
  simp [lowerChars]

/-- A template draw from a nonempty pool is a pool entry. -/
theorem pick_mem (pool : List String) (seed : Nat) (h : pool ≠ []) :
    pick pool seed ∈ pool := by
  have hlen : 0 < pool.length := List.length_pos.mpr h
  have hm : seed % pool.length < pool.length := Nat.mod_lt _ hlen
  rw [pick, List.getD_eq_getElem pool "" hm]
  exact List.getElem_mem hm

set_option maxRecDepth 8000 in
/-- C8: generate on the Discord target URL with strategy comment_only and
locale no yields a primary title and body free of the case-insensitive
substring "discord", a secondary delay in 5 to 15 minutes, and a comment text
that contains the shortened/obfuscated URL and not the raw target URL
(assuming, as the spec does of the shortening collaborator, that the
indirection URL itself does not contain "discord"). -/
theorem generate_comment_only_hides_url (seed : Nat) (shortUrl : String)
    (h : containsTerm shortUrl "discord" = false) :
    containsTerm (generate "https://discord.gg/Example" StrategyKind.comment_only
      "no" seed shortUrl).title "discord" = false ∧
    containsTerm (generate "https://discord.gg/Example" StrategyKind.comment_only
      "no" seed shortUrl).body "discord" = false ∧
    ∃ d ctext,
      (generate "https://discord.gg/Example" StrategyKind.comment_only
        "no" seed shortUrl).payload = SecondaryPayload.comment d ctext ∧
      5 ≤ d ∧ d ≤ 15 ∧
      shortUrl.data <:+: ctext.data ∧
      containsTerm ctext "discord" = false ∧
      ¬ lowerChars "https://discord.gg/Example" <:+: lowerChars ctext := by
  have hS : ¬ lowerChars "discord" <:+: lowerChars shortUrl := of_decide_eq_false h
  have htitle : ∀ t ∈ norwegianTitles, containsTerm t "discord" = false := by decide
  have hbody : ∀ t ∈ norwegianBodies, containsTerm t "discord" = false := by decide
  have hnod : ¬ lowerChars "discord" <:+:
      lowerChars (commentIntro ++ shortUrl ++ commentOutro) := by
    rw [lowerChars_append, lowerChars_append, List.append_assoc]
    exact not_infix_sandwich (lowerChars "discord") (lowerChars commentIntro)
      (lowerChars commentOutro) (lowerChars shortUrl)
      (by decide) (by decide) hS (by decide) (by decide)
  refine ⟨htitle _ (pick_mem norwegianTitles seed (by decide)),
    hbody _ (pick_mem norwegianBodies seed (by decide)),
    commentDelay seed, commentIntro ++ shortUrl ++ commentOutro, rfl,
    ?_, ?_, ?_, decide_eq_false hnod, ?_⟩
  · simp [commentDelay]
  · have hm : seed % 11 < 11 := Nat.mod_lt _ (by norm_num)
    simp only [commentDelay]
    omega
  · exact ⟨commentIntro.data, commentOutro.data, by simp⟩
  · intro hraw
    exact hnod (List.IsInfix.trans
      (show lowerChars "discord" <:+: lowerChars "https://discord.gg/Example" by decide)
      hraw)

/-- C8 witness: the concrete scenario at draw 0 with the guide's example
shortened URL. -/
theorem generate_comment_only_hides_url_witness :
    containsTerm (generate "https://discord.gg/Example" StrategyKind.comment_only
      "no" 0 "https://tinyurl.com/abc123").title "discord" = false ∧
    containsTerm (generate "https://discord.gg/Example" StrategyKind.comment_only
      "no" 0 "https://tinyurl.com/abc123").body "discord" = false ∧
    ∃ d ctext,
      (generate "https://discord.gg/Example" StrategyKind.comment_only
        "no" 0 "https://tinyurl.com/abc123").payload = SecondaryPayload.comment d ctext ∧
      5 ≤ d ∧ d ≤ 15 ∧
      ("https://tinyurl.com/abc123" : String).data <:+: ctext.data ∧
      containsTerm ctext "discord" = false ∧
      ¬ lowerChars "https://discord.gg/Example" <:+: lowerChars ctext :=
  generate_comment_only_hides_url 0 "https://tinyurl.com/abc123" (by decide)
